import Mathlib

/-!
Verification of the seal-set algebra and the memfd wrapper layer of the
memfile crate (`src/seal.rs`, `src/lib.rs`, `src/sys.rs`).

The embedding is parametric in a `linux : Bool` flag, mirroring the
`#[cfg(target_os = "linux")]` conditionals of the source: on Linux the
canonical seal set has five members (including `FutureWrite`), on other
Unix-like targets four.  Machine integers (`u32`, `c_int`) are embedded as
`Nat` bit masks; the only operation where u32 width matters is bitwise
complement, embedded as xor with `2^32 - 1`.
-/

namespace Memfile

/-- Kernel ABI value of the F_SEAL_SEAL flag (Linux uapi headers). -/
def F_SEAL_SEAL : Nat := 0x0001

/-- Kernel ABI value of the F_SEAL_SHRINK flag. -/
def F_SEAL_SHRINK : Nat := 0x0002

/-- Kernel ABI value of the F_SEAL_GROW flag. -/
def F_SEAL_GROW : Nat := 0x0004

/-- Kernel ABI value of the F_SEAL_WRITE flag. -/
def F_SEAL_WRITE : Nat := 0x0008

/-- Kernel ABI value of the F_SEAL_FUTURE_WRITE flag (Linux only). -/
def F_SEAL_FUTURE_WRITE : Nat := 0x0010

/-- All bits of a `u32`; xor with this value is the u32 bitwise complement. -/
def U32_MASK : Nat := 2 ^ 32 - 1

/-- Embeds `SEAL_MASK` from `src/seal.rs`: the OR of all canonical seal bits,
platform-conditional on `target_os = "linux"`. -/
def SEAL_MASK (linux : Bool) : Nat :=
  if linux then
    F_SEAL_SEAL ||| F_SEAL_SHRINK ||| F_SEAL_GROW ||| F_SEAL_WRITE ||| F_SEAL_FUTURE_WRITE
  else
    F_SEAL_SEAL ||| F_SEAL_SHRINK ||| F_SEAL_GROW ||| F_SEAL_WRITE

/-- Embeds the `Seal` enum from `src/seal.rs`.  The `FutureWrite` member is
compiled only on Linux; here it is always a constructor and the platform
distinction lives in `ALL_SEALS` and `SEAL_MASK`. -/
inductive Seal where
  | seal
  | shrink
  | grow
  | write
  | futureWrite
deriving DecidableEq, Repr

/-- Discriminant values of the `Seal` enum (`Seal::X as u32`). -/
def Seal.val : Seal → Nat
  | .seal => F_SEAL_SEAL
  | .shrink => F_SEAL_SHRINK
  | .grow => F_SEAL_GROW
  | .write => F_SEAL_WRITE
  | .futureWrite => F_SEAL_FUTURE_WRITE

/-- Embeds the `ALL_SEALS` constant: the canonical seal list, in canonical
order, platform-conditional on Linux. -/
def ALL_SEALS (linux : Bool) : List Seal :=
  if linux then
    [Seal.seal, Seal.shrink, Seal.grow, Seal.write, Seal.futureWrite]
  else
    [Seal.seal, Seal.shrink, Seal.grow, Seal.write]

/-- Embeds `struct Seals { bits: u32 }` from `src/seal.rs`. -/
structure Seals where
  bits : Nat
deriving DecidableEq

/-- Embeds the private constructor `Seals::from_bits` (no truncation). -/
def Seals.from_bits (bits : Nat) : Seals :=
  Seals.mk bits

/-- Embeds `Seals::from_bits_truncate`: clears all bits outside `SEAL_MASK`. -/
def Seals.from_bits_truncate (linux : Bool) (bits : Nat) : Seals :=
  Seals.from_bits (bits &&& SEAL_MASK linux)

/-- Embeds `Seals::empty()`. -/
def Seals.empty (linux : Bool) : Seals :=
  Seals.from_bits_truncate linux 0

/-- Embeds `Seals::all()`. -/
def Seals.all (linux : Bool) : Seals :=
  Seals.from_bits (SEAL_MASK linux)

/-- Population count of the low 32 bits; embeds `u32::count_ones`. -/
def countOnes32 (n : Nat) : Nat :=
  ((List.range 32).filter (fun i => n.testBit i)).length

/-- Embeds `Seals::len()`: `self.bits.count_ones()`. -/
def Seals.len (s : Seals) : Nat :=
  countOnes32 s.bits

/-- Embeds the derived `PartialEq` on `Seals`: comparison of the bit masks. -/
def Seals.beq (a b : Seals) : Bool :=
  a.bits == b.bits

/-- Embeds `Seals::is_empty()`: `self.bits == 0`. -/
def Seals.is_empty (s : Seals) : Bool :=
  s.bits == 0

/-- Embeds `Seals::is_all()`: `self.bits == Self::all().bits`. -/
def Seals.is_all (linux : Bool) (s : Seals) : Bool :=
  s.bits == (Seals.all linux).bits

/-- Embeds `impl From<Seal> for Seals`: `from_bits_truncate(seal as u32)`. -/
def Seals.fromSeal (linux : Bool) (s : Seal) : Seals :=
  Seals.from_bits_truncate linux s.val

/-- Embeds `impl BitAnd for Seals`: `from_bits(self.bits & right.bits)`. -/
def Seals.and (a b : Seals) : Seals :=
  Seals.from_bits (a.bits &&& b.bits)

/-- Embeds `impl BitOr for Seals`: `from_bits(self.bits | right.bits)`. -/
def Seals.or (a b : Seals) : Seals :=
  Seals.from_bits (a.bits ||| b.bits)

/-- Embeds `impl BitXor for Seals`: `from_bits(self.bits ^ right.bits)`. -/
def Seals.xor (a b : Seals) : Seals :=
  Seals.from_bits (a.bits ^^^ b.bits)

/-- Embeds `impl Not for Seals`: `from_bits(!self.bits)`, the full-width u32
complement, not clipped to `SEAL_MASK`. -/
def Seals.compl (a : Seals) : Seals :=
  Seals.from_bits (a.bits ^^^ U32_MASK)

/-- Embeds `impl Sub for Seals`: `from_bits(self.bits & !right.bits)`. -/
def Seals.sub (a b : Seals) : Seals :=
  Seals.from_bits (a.bits &&& (b.bits ^^^ U32_MASK))

/-- Embeds `Seals::contains`: `self & other == other` (after `Into`). -/
def Seals.contains (a b : Seals) : Bool :=
  (a.and b).beq b

/-- Embeds `Seals::intersects`: `!(self & other).is_empty()`. -/
def Seals.intersects (a b : Seals) : Bool :=
  !(a.and b).is_empty

/-- Embeds `struct SealsIterator { seals: Seals }`. -/
structure SealsIterator where
  seals : Seals
deriving DecidableEq

/-- Embeds `SealsIterator::new`. -/
def SealsIterator.new (s : Seals) : SealsIterator :=
  SealsIterator.mk s

/-- The loop body of `SealsIterator::next`: scan a list of seals for the
first one contained in `seals`, returning it together with the set after
`self.seals -= seal`. -/
def sealsNextAux (linux : Bool) (seals : Seals) : List Seal → Option (Seal × Seals)
  | [] => none
  | s :: rest =>
    if seals.contains (Seals.fromSeal linux s) then
      some (s, seals.sub (Seals.fromSeal linux s))
    else
      sealsNextAux linux seals rest

/-- Embeds `impl Iterator for SealsIterator`: `next` scans `ALL_SEALS` in
canonical order for the first seal present, removes it, and yields it. -/
def SealsIterator.next (linux : Bool) (it : SealsIterator) : Option (Seal × SealsIterator) :=
  match sealsNextAux linux it.seals (ALL_SEALS linux) with
  | none => none
  | some (s, rest) => some (s, SealsIterator.mk rest)

/-- Run the iterator for at most `fuel` steps, collecting the yielded seals
and returning the final iterator state. -/
def runIter (linux : Bool) : Nat → SealsIterator → List Seal × SealsIterator
  | 0, it => ([], it)
  | fuel + 1, it =>
    match SealsIterator.next linux it with
    | none => ([], it)
    | some (s, it2) =>
      (s :: (runIter linux fuel it2).1, (runIter linux fuel it2).2)

/-- The full list of seals yielded by iterating a `Seals` value
(`ALL_SEALS.length` steps of fuel always suffice, as proved below). -/
def Seals.iterList (linux : Bool) (s : Seals) : List Seal :=
  (runIter linux (ALL_SEALS linux).length (SealsIterator.new s)).1

/-- Names produced by the derived `Debug` impl of the `Seal` enum. -/
def Seal.debugName : Seal → String
  | .seal => "Seal"
  | .shrink => "Shrink"
  | .grow => "Grow"
  | .write => "Write"
  | .futureWrite => "FutureWrite"

/-- The loop body of `impl Debug for Seals`: the first seal is rendered as
`"{:?} "`, every later one as `"| {:?} "`. -/
def sealsDebugBody : Nat → List Seal → String
  | _, [] => ""
  | i, s :: rest =>
    (if i == 0 then s.debugName ++ " " else "| " ++ s.debugName ++ " ") ++
      sealsDebugBody (i + 1) rest

/-- Embeds `impl Debug for Seals`: `"Seals { "`, the enumerated seals from
the iterator, then `"}"`. -/
def Seals.debugFmt (linux : Bool) (s : Seals) : String :=
  "Seals \x7b " ++ sealsDebugBody 0 (s.iterList linux) ++ "\x7d"

/-! Helper lemmas about masking.  The iterator's behaviour depends only on
the bits of the set that lie inside `SEAL_MASK`; this lets every property of
the iterator be decided on the 32 masked bit patterns. -/

lemma and_mask_idem (b M : Nat) : (b &&& M) &&& M = b &&& M := by
  rw [Nat.and_assoc, Nat.and_self]

lemma and_absorb (v M : Nat) (h : v &&& M = v) : M &&& v = v := by
  rw [Nat.and_comm M v, h]

lemma masked_and (b v M : Nat) (h : v &&& M = v) : (b &&& M) &&& v = b &&& v := by
  rw [Nat.and_assoc, and_absorb v M h]

lemma masked_and_right (b c M : Nat) : (b &&& M) &&& c = (b &&& c) &&& M := by
  rw [Nat.and_assoc, Nat.and_comm M c, ← Nat.and_assoc]

lemma fromSeal_within (linux : Bool) (x : Seal) :
    (Seals.fromSeal linux x).bits &&& SEAL_MASK linux = (Seals.fromSeal linux x).bits := by
  cases linux <;> cases x <;> decide

lemma contains_mask_eq (linux : Bool) (b : Nat) (x : Seal) :
    Seals.contains (Seals.mk (b &&& SEAL_MASK linux)) (Seals.fromSeal linux x)
      = Seals.contains (Seals.mk b) (Seals.fromSeal linux x) := by
  simp only [Seals.contains, Seals.and, Seals.from_bits, Seals.beq]
  rw [masked_and b (Seals.fromSeal linux x).bits (SEAL_MASK linux) (fromSeal_within linux x)]

lemma sub_mask_eq (linux : Bool) (b : Nat) (x : Seal) :
    Seals.sub (Seals.mk (b &&& SEAL_MASK linux)) (Seals.fromSeal linux x)
      = Seals.mk ((Seals.sub (Seals.mk b) (Seals.fromSeal linux x)).bits &&& SEAL_MASK linux) := by
  simp only [Seals.sub, Seals.from_bits]
  rw [masked_and_right]

lemma sealsNextAux_mask (linux : Bool) (b : Nat) (lst : List Seal) :
    sealsNextAux linux (Seals.mk (b &&& SEAL_MASK linux)) lst
      = Option.map (fun p : Seal × Seals => (p.1, Seals.mk (p.2.bits &&& SEAL_MASK linux)))
          (sealsNextAux linux (Seals.mk b) lst) := by
  induction lst with
  | nil => rfl
  | cons s rest ih =>
    simp only [sealsNextAux]
    rw [contains_mask_eq]
    cases h : Seals.contains (Seals.mk b) (Seals.fromSeal linux s)
    · simp only [h, Bool.false_eq_true, if_false, ih]
    · simp only [h, if_true, Option.map_some']
      rw [sub_mask_eq]

lemma next_mask (linux : Bool) (b : Nat) :
    SealsIterator.next linux (SealsIterator.mk (Seals.mk (b &&& SEAL_MASK linux)))
      = Option.map (fun p : Seal × SealsIterator =>
            (p.1, SealsIterator.mk (Seals.mk (p.2.seals.bits &&& SEAL_MASK linux))))
          (SealsIterator.next linux (SealsIterator.mk (Seals.mk b))) := by
  simp only [SealsIterator.next]
  rw [sealsNextAux_mask]
  cases sealsNextAux linux (Seals.mk b) (ALL_SEALS linux) with
  | none => rfl
  | some p => rfl

lemma runIter_mask (linux : Bool) (fuel : Nat) (b : Nat) :
    runIter linux fuel (SealsIterator.mk (Seals.mk (b &&& SEAL_MASK linux)))
      = ((runIter linux fuel (SealsIterator.mk (Seals.mk b))).1,
         SealsIterator.mk (Seals.mk
           ((runIter linux fuel (SealsIterator.mk (Seals.mk b))).2.seals.bits &&& SEAL_MASK linux))) := by
  induction fuel generalizing b with
  | zero => rfl
  | succ n ih =>
    simp only [runIter]
    rw [next_mask]
    cases h : SealsIterator.next linux (SealsIterator.mk (Seals.mk b)) with
    | none => rfl
    | some p =>
      obtain ⟨ps, pit⟩ := p
      simp only [Option.map_some']
      have hpit : SealsIterator.mk (Seals.mk pit.seals.bits) = pit := rfl
      rw [ih pit.seals.bits, hpit]

lemma runIter_mask_fst (linux : Bool) (fuel : Nat) (b : Nat) :
    (runIter linux fuel (SealsIterator.mk (Seals.mk (b &&& SEAL_MASK linux)))).1
      = (runIter linux fuel (SealsIterator.mk (Seals.mk b))).1 := by
  rw [runIter_mask]

lemma runIter_mask_snd (linux : Bool) (fuel : Nat) (b : Nat) :
    (runIter linux fuel (SealsIterator.mk (Seals.mk (b &&& SEAL_MASK linux)))).2
      = SealsIterator.mk (Seals.mk
          ((runIter linux fuel (SealsIterator.mk (Seals.mk b))).2.seals.bits &&& SEAL_MASK linux)) := by
  rw [runIter_mask]

lemma iter_masked_all (linux : Bool) :
    ∀ m : Fin 32,
      (runIter linux (ALL_SEALS linux).length
            (SealsIterator.mk (Seals.mk (m.val &&& SEAL_MASK linux)))).1
          = (ALL_SEALS linux).filter
              (fun x => Seals.contains (Seals.mk (m.val &&& SEAL_MASK linux)) (Seals.fromSeal linux x))
        ∧ SealsIterator.next linux
            (runIter linux (ALL_SEALS linux).length
              (SealsIterator.mk (Seals.mk (m.val &&& SEAL_MASK linux)))).2 = none := by
  cases linux <;> decide

lemma bits_and_mask_lt (linux : Bool) (b : Nat) : b &&& SEAL_MASK linux < 32 := by
  have h1 : b &&& SEAL_MASK linux ≤ SEAL_MASK linux := Nat.and_le_right
  have h2 : SEAL_MASK linux ≤ 31 := by cases linux <;> decide
  omega

lemma iterList_eq_filter (linux : Bool) (s : Seals) :
    s.iterList linux
      = (ALL_SEALS linux).filter (fun x => s.contains (Seals.fromSeal linux x)) := by
  have h := (iter_masked_all linux ⟨s.bits &&& SEAL_MASK linux, bits_and_mask_lt linux s.bits⟩).1
  simp only [and_mask_idem] at h
  rw [runIter_mask_fst] at h
  have hfilter : (ALL_SEALS linux).filter
        (fun x => Seals.contains (Seals.mk (s.bits &&& SEAL_MASK linux)) (Seals.fromSeal linux x))
      = (ALL_SEALS linux).filter (fun x => s.contains (Seals.fromSeal linux x)) :=
    List.filter_congr (fun x _ => contains_mask_eq linux s.bits x)
  exact h.trans hfilter

lemma iter_terminal (linux : Bool) (s : Seals) :
    SealsIterator.next linux
      (runIter linux (ALL_SEALS linux).length (SealsIterator.new s)).2 = none := by
  have h := (iter_masked_all linux ⟨s.bits &&& SEAL_MASK linux, bits_and_mask_lt linux s.bits⟩).2
  simp only [and_mask_idem] at h
  rw [runIter_mask_snd, next_mask] at h
  exact Option.map_eq_none'.mp h

lemma Seals.beq_true_iff (a b : Seals) : Seals.beq a b = true ↔ a = b := by
  cases a
  cases b
  simp [Seals.beq]

lemma Seals.empty_eq (linux : Bool) : Seals.empty linux = Seals.mk 0 := by
  cases linux <;> rfl

/-- Claim C1: iterating a `Seals` value yields exactly the `Seal` values
present in the set, each present seal exactly once, in the fixed canonical
order `Seal, Shrink, Grow, Write, FutureWrite` (with `FutureWrite` a member
of the canonical list only on Linux), regardless of how the set was
constructed, and the iteration terminates: after the last present seal the
iterator returns `none`. -/
theorem seals_iteration_canonical (linux : Bool) (s : Seals) :
    s.iterList linux
        = (ALL_SEALS linux).filter (fun x => s.contains (Seals.fromSeal linux x))
      ∧ (∀ x : Seal, x ∈ ALL_SEALS linux →
          (x ∈ s.iterList linux ↔ s.contains (Seals.fromSeal linux x) = true))
      ∧ (s.iterList linux).Nodup
      ∧ ALL_SEALS true = [Seal.seal, Seal.shrink, Seal.grow, Seal.write, Seal.futureWrite]
      ∧ ALL_SEALS false = [Seal.seal, Seal.shrink, Seal.grow, Seal.write]
      ∧ SealsIterator.next linux
          (runIter linux (ALL_SEALS linux).length (SealsIterator.new s)).2 = none := by
  refine ⟨iterList_eq_filter linux s, ?_, ?_, rfl, rfl, iter_terminal linux s⟩
  · intro x hx
    rw [iterList_eq_filter, List.mem_filter]
    exact ⟨fun h => h.2, fun h => ⟨hx, h⟩⟩
  · rw [iterList_eq_filter]
    exact List.Nodup.filter _ (by cases linux <;> decide)

/-- Witness for C1: instantiated on the set `Shrink | Grow` (mask 6) on
Linux, discharging the canonical-membership hypothesis for `Seal.grow`. -/
theorem seals_iteration_canonical_witness :
    Seal.grow ∈ (Seals.mk 6).iterList true ↔
      (Seals.mk 6).contains (Seals.fromSeal true Seal.grow) = true :=
  (seals_iteration_canonical true (Seals.mk 6)).2.1 Seal.grow (by decide)

/-- Claim C2: for all seal sets A and B — and equally when the right-hand
operand is a single seal first converted to a one-element set by
`From<Seal>` — `contains` is true iff `(A & B) == B` and `intersects` is
true iff `(A & B)` is not the empty set. -/
theorem seals_contains_intersects_spec (linux : Bool) (A B : Seals) (x : Seal) :
    (A.contains B = true ↔ A.and B = B)
      ∧ (A.intersects B = true ↔ A.and B ≠ Seals.empty linux)
      ∧ (A.contains (Seals.fromSeal linux x) = true ↔
          A.and (Seals.fromSeal linux x) = Seals.fromSeal linux x)
      ∧ (A.intersects (Seals.fromSeal linux x) = true ↔
          A.and (Seals.fromSeal linux x) ≠ Seals.empty linux) := by
  have h1 : ∀ C : Seals, A.contains C = true ↔ A.and C = C := by
    intro C
    rw [Seals.contains, Seals.beq_true_iff]
  have h2 : ∀ C : Seals, A.intersects C = true ↔ A.and C ≠ Seals.empty linux := by
    intro C
    rw [Seals.empty_eq]
    simp [Seals.intersects, Seals.is_empty, Seals.and, Seals.from_bits]
  exact ⟨h1 B, h2 B, h1 (Seals.fromSeal linux x), h2 (Seals.fromSeal linux x)⟩

/-- Claim C3: every `Seals` value built through a public constructor
(`from_bits_truncate`, `empty`, `all`, `From<Seal>`) has no bit outside
`SEAL_MASK`; `from_bits_truncate` silently clears unknown bits, so for any
mask `m`, `from_bits_truncate m = from_bits_truncate (m &&& SEAL_MASK)`,
and `from_bits_truncate (all().bits()) = all()`. -/
theorem seals_constructor_invariant (linux : Bool) (m : Nat) (x : Seal) :
    (Seals.from_bits_truncate linux m).bits &&& SEAL_MASK linux
        = (Seals.from_bits_truncate linux m).bits
      ∧ (Seals.empty linux).bits &&& SEAL_MASK linux = (Seals.empty linux).bits
      ∧ (Seals.all linux).bits &&& SEAL_MASK linux = (Seals.all linux).bits
      ∧ (Seals.fromSeal linux x).bits &&& SEAL_MASK linux = (Seals.fromSeal linux x).bits
      ∧ Seals.from_bits_truncate linux m = Seals.from_bits_truncate linux (m &&& SEAL_MASK linux)
      ∧ Seals.from_bits_truncate linux (Seals.all linux).bits = Seals.all linux := by
  refine ⟨?_, ?_, ?_, fromSeal_within linux x, ?_, ?_⟩
  · exact and_mask_idem m (SEAL_MASK linux)
  · cases linux <;> decide
  · cases linux <;> decide
  · simp [Seals.from_bits_truncate, Seals.from_bits, and_mask_idem]
  · cases linux <;> decide

/-- Claim C4: the set operators satisfy `A | B | A = A | B`, `A & A = A`,
`A ^ A = empty()` and `!(!A) = A`, where complement flips every one of the
32 bits of the unsigned width rather than being clipped to `SEAL_MASK`. -/
theorem seals_operator_algebra (linux : Bool) (A B : Seals) (i : Fin 32) :
    (A.or B).or A = A.or B
      ∧ A.and A = A
      ∧ A.xor A = Seals.empty linux
      ∧ A.compl.compl = A
      ∧ A.compl.bits.testBit i.val = !A.bits.testBit i.val := by
  refine ⟨?_, ?_, ?_, ?_, ?_⟩
  · have h : (A.bits ||| B.bits) ||| A.bits = A.bits ||| B.bits := by
      rw [Nat.or_assoc, Nat.or_comm B.bits A.bits, ← Nat.or_assoc, Nat.or_self]
    simp [Seals.or, Seals.from_bits, h]
  · simp [Seals.and, Seals.from_bits, Nat.and_self]
  · simp [Seals.xor, Seals.from_bits, Nat.xor_self, Seals.empty_eq]
  · simp [Seals.compl, Seals.from_bits, Nat.xor_assoc, Nat.xor_self, Nat.xor_zero]
  · show (A.bits ^^^ U32_MASK).testBit i.val = !A.bits.testBit i.val
    have hU : U32_MASK = 2 ^ 32 - 1 := rfl
    rw [hU, Nat.testBit_xor, Nat.testBit_two_pow_sub_one]
    simp [i.isLt]

/-- Claim C5: `len` is the population count of the mask; `empty().len() = 0`
and `all().len()` is 5 on Linux, 4 on other Unix-like targets; `is_empty`
holds exactly when the mask is zero and `is_all` exactly when it equals the
full mask; `empty()` is contained in every set; and every set whose mask
stays within `SEAL_MASK` (every subset of the canonical seal set) is
contained in `all()`. -/
theorem seals_len_bounds (linux : Bool) (A : Seals) :
    A.len = countOnes32 A.bits
      ∧ (Seals.empty linux).len = 0
      ∧ (Seals.all true).len = 5
      ∧ (Seals.all false).len = 4
      ∧ (A.is_empty = true ↔ A.bits = 0)
      ∧ (A.is_all linux = true ↔ A.bits = SEAL_MASK linux)
      ∧ A.contains (Seals.empty linux) = true
      ∧ (A.bits &&& SEAL_MASK linux = A.bits → (Seals.all linux).contains A = true) := by
  refine ⟨rfl, by cases linux <;> decide, by decide, by decide, ?_, ?_, ?_, ?_⟩
  · simp [Seals.is_empty]
  · simp [Seals.is_all, Seals.all, Seals.from_bits]
  · rw [Seals.empty_eq]
    simp [Seals.contains, Seals.and, Seals.beq, Seals.from_bits, Nat.and_zero]
  · intro h
    simp [Seals.contains, Seals.and, Seals.beq, Seals.from_bits, Seals.all,
      and_absorb A.bits (SEAL_MASK linux) h]

/-- Witness for C5: the subset `Seal | Shrink` (mask 3) of the canonical
set is contained in `all()` on Linux. -/
theorem seals_len_bounds_witness :
    (Seals.all true).contains (Seals.mk 3) = true :=
  (seals_len_bounds true (Seals.mk 3)).2.2.2.2.2.2.2 (by decide)

/-- Claim C6: the binary set operators preserve the `SEAL_MASK` invariant —
if A and B have no bits outside the mask, neither do `A | B`, `A & B`,
`A - B`, `A ^ B` — while complement escapes it: `!empty()` has all 32 bits
set, is not `is_all()`, and is not contained in `all()`, even though it
contains every canonical seal. -/
theorem seals_complement_escapes_mask (linux : Bool) (A B : Seals)
    (hA : A.bits &&& SEAL_MASK linux = A.bits)
    (hB : B.bits &&& SEAL_MASK linux = B.bits) :
    (A.or B).bits &&& SEAL_MASK linux = (A.or B).bits
      ∧ (A.and B).bits &&& SEAL_MASK linux = (A.and B).bits
      ∧ (A.sub B).bits &&& SEAL_MASK linux = (A.sub B).bits
      ∧ (A.xor B).bits &&& SEAL_MASK linux = (A.xor B).bits
      ∧ (Seals.empty linux).compl.bits = 2 ^ 32 - 1
      ∧ (Seals.empty linux).compl.is_all linux = false
      ∧ (Seals.all linux).contains (Seals.empty linux).compl = false
      ∧ (∀ x ∈ ALL_SEALS linux,
          (Seals.empty linux).compl.contains (Seals.fromSeal linux x) = true) := by
  refine ⟨?_, ?_, ?_, ?_, ?_, ?_, ?_, ?_⟩
  · show (A.bits ||| B.bits) &&& SEAL_MASK linux = A.bits ||| B.bits
    rw [Nat.and_distrib_right, hA, hB]
  · show (A.bits &&& B.bits) &&& SEAL_MASK linux = A.bits &&& B.bits
    rw [Nat.and_assoc, Nat.and_comm B.bits (SEAL_MASK linux), ← Nat.and_assoc, hA]
  · show (A.bits &&& (B.bits ^^^ U32_MASK)) &&& SEAL_MASK linux
        = A.bits &&& (B.bits ^^^ U32_MASK)
    rw [← masked_and_right, hA]
  · show (A.bits ^^^ B.bits) &&& SEAL_MASK linux = A.bits ^^^ B.bits
    rw [Nat.and_xor_distrib_right, hA, hB]
  · cases linux <;> decide
  · cases linux <;> decide
  · cases linux <;> decide
  · cases linux <;> decide

/-- Witness for C6: instantiated on the subsets `Seal | Shrink` (mask 3)
and `Seal | Grow` (mask 5) on Linux. -/
theorem seals_complement_escapes_mask_witness :
    ((Seals.mk 3).or (Seals.mk 5)).bits &&& SEAL_MASK true
      = ((Seals.mk 3).or (Seals.mk 5)).bits :=
  (seals_complement_escapes_mask true (Seals.mk 3) (Seals.mk 5)
    (by decide) (by decide)).1

lemma sealsDebugBody_succ (l : List Seal) (i : Nat) :
    sealsDebugBody (i + 1) l = sealsDebugBody 1 l := by
  induction l generalizing i with
  | nil => rfl
  | cons x rest ih =>
    simp only [sealsDebugBody]
    rw [ih (i + 1), ih 1]
    simp

lemma intercalate_go_body (l : List Seal) (acc : String) :
    String.intercalate.go acc "| " (l.map (fun x => x.debugName ++ " "))
      = acc ++ sealsDebugBody 1 l := by
  induction l generalizing acc with
  | nil => rw [List.map_nil, String.intercalate.go, sealsDebugBody, String.append_empty]
  | cons x rest ih =>
    rw [List.map_cons, String.intercalate.go, ih]
    simp only [sealsDebugBody, sealsDebugBody_succ]
    simp [String.append_assoc]

lemma sealsDebugBody_eq_intercalate (l : List Seal) :
    sealsDebugBody 0 l
      = String.intercalate "| " (l.map (fun x => x.debugName ++ " ")) := by
  cases l with
  | nil => rfl
  | cons x rest =>
    rw [List.map_cons, String.intercalate, intercalate_go_body]
    simp only [sealsDebugBody, sealsDebugBody_succ]
    simp

/-- Embedding of `std::io::Error`: represented by its raw OS error code. -/
structure IoError where
  code : Int
deriving DecidableEq

/-- Embeds `struct MemFile { file: File }` from `src/lib.rs`; the owned
`std::fs::File` is represented by its raw file descriptor. -/
structure MemFile where
  fd : Int
deriving DecidableEq

/-- Embeds `struct FromFdError<T> { error: std::io::Error, file: T }`. -/
structure FromFdError (T : Type) where
  error : IoError
  file : T
deriving DecidableEq

/-- Embeds `FromFdError::into_parts`. -/
def FromFdError.into_parts {T : Type} (e : FromFdError T) : IoError × T :=
  (e.error, e.file)

/-- Embeds `FromFdError::into_error`. -/
def FromFdError.into_error {T : Type} (e : FromFdError T) : IoError :=
  e.error

/-- Embeds `FromFdError::into_file`. -/
def FromFdError.into_file {T : Type} (e : FromFdError T) : T :=
  e.file

/-- Embeds `MemFile::from_file`: it queries the seal state of the supplied
descriptor through `sys::memfd_get_seals` (the `fcntl(F_GET_SEALS)`
boundary, passed explicitly as `kernel`); on success the input is consumed
into a new `MemFile` over its raw descriptor, on failure a `FromFdError`
carrying the OS error and the original, still-owned file object is
returned.  The `AsRawFd`/`IntoRawFd` accessors of the generic parameter
`T` (which the trait contract requires to agree) are passed as
`as_raw_fd`. -/
def MemFile.from_file {T : Type} (kernel : Int → Except IoError Int)
    (as_raw_fd : T → Int) (file : T) : Except (FromFdError T) MemFile :=
  match kernel (as_raw_fd file) with
  | .ok _ => .ok (MemFile.mk (as_raw_fd file))
  | .error e => .error (FromFdError.mk e file)

/-- Embeds `MemFile::get_seals`: queries the kernel seal bitmask through
`sys::memfd_get_seals` and decodes it with `Seals::from_bits_truncate`;
the `c_int` result is cast to `u32` (`seals as u32`), embedded as the
residue modulo `2^32`. -/
def MemFile.get_seals (linux : Bool) (kernel : Int → Except IoError Int)
    (self : MemFile) : Except IoError Seals :=
  match kernel self.fd with
  | .error e => .error e
  | .ok m => .ok (Seals.from_bits_truncate linux (m % (2 ^ 32 : Int)).toNat)

/-- Embeds the `memfd_create` flag constant `MFD_CLOEXEC` from `src/sys.rs`. -/
def MFD_CLOEXEC : Nat := 0x01

/-- Embeds `MFD_ALLOW_SEALING`. -/
def MFD_ALLOW_SEALING : Nat := 0x02

/-- Embeds `MFD_HUGETLB`. -/
def MFD_HUGETLB : Nat := 0x04

/-- Embeds `MFD_HUGE_SHIFT`. -/
def MFD_HUGE_SHIFT : Nat := 26

/-- Embeds the `HugeTlb` enum from `src/lib.rs`. -/
inductive HugeTlb where
  | Huge64KB
  | Huge512KB
  | Huge1MB
  | Huge2MB
  | Huge8MB
  | Huge16MB
  | Huge32MB
  | Huge256MB
  | Huge512MB
  | Huge1GB
  | Huge2GB
  | Huge16GB
deriving DecidableEq, Repr

/-- Discriminants of `HugeTlb` (`sys::flags::MFD_HUGE_* as u32`): the page
size selector encoded as `log2(size) << MFD_HUGE_SHIFT`, as u32 bit
patterns. -/
def HugeTlb.val : HugeTlb → Nat
  | .Huge64KB => 16 <<< MFD_HUGE_SHIFT
  | .Huge512KB => 19 <<< MFD_HUGE_SHIFT
  | .Huge1MB => 20 <<< MFD_HUGE_SHIFT
  | .Huge2MB => 21 <<< MFD_HUGE_SHIFT
  | .Huge8MB => 23 <<< MFD_HUGE_SHIFT
  | .Huge16MB => 24 <<< MFD_HUGE_SHIFT
  | .Huge32MB => 25 <<< MFD_HUGE_SHIFT
  | .Huge256MB => 28 <<< MFD_HUGE_SHIFT
  | .Huge512MB => 29 <<< MFD_HUGE_SHIFT
  | .Huge1GB => 30 <<< MFD_HUGE_SHIFT
  | .Huge2GB => 31 <<< MFD_HUGE_SHIFT
  | .Huge16GB => 34 <<< MFD_HUGE_SHIFT

/-- Embeds `struct CreateOptions { allow_sealing: bool, huge_table: Option<HugeTlb> }`. -/
structure CreateOptions where
  allow_sealing : Bool
  huge_table : Option HugeTlb
deriving DecidableEq

/-- Embeds `CreateOptions::default()`: sealing off, no huge-page size. -/
def CreateOptions.default : CreateOptions :=
  CreateOptions.mk false none

/-- Embeds `CreateOptions::new()` (delegates to `default`). -/
def CreateOptions.new : CreateOptions :=
  CreateOptions.default

/-- Embeds the builder method `CreateOptions::allow_sealing(value)`. -/
def CreateOptions.setAllowSealing (o : CreateOptions) (value : Bool) : CreateOptions :=
  CreateOptions.mk value o.huge_table

/-- Embeds the builder method `CreateOptions::huge_tlb(value)`. -/
def CreateOptions.setHugeTlb (o : CreateOptions) (value : Option HugeTlb) : CreateOptions :=
  CreateOptions.mk o.allow_sealing value

/-- Embeds `CreateOptions::as_flags`: always `MFD_CLOEXEC`, or-ed with
`MFD_ALLOW_SEALING` when sealing is allowed, and — only on Linux, the
huge-page branch being under `#[cfg(target_os = "linux")]` — with
`MFD_HUGETLB | size as u32` when a huge-page size is configured. -/
def CreateOptions.as_flags (linux : Bool) (o : CreateOptions) : Nat :=
  let f1 := MFD_CLOEXEC
  let f2 := if o.allow_sealing then f1 ||| MFD_ALLOW_SEALING else f1
  if linux then
    match o.huge_table with
    | some size => f2 ||| (MFD_HUGETLB ||| size.val)
    | none => f2
  else
    f2

/-- Embeds `MemFile::create`: invokes the creation syscall (the
`memfd_create` boundary, passed explicitly as `sys_create`, receiving the
debug name and the flag word derived from the options) and wraps the
returned descriptor. -/
def MemFile.create (linux : Bool) (sys_create : String → Nat → Except IoError Int)
    (name : String) (options : CreateOptions) : Except IoError MemFile :=
  match sys_create name (options.as_flags linux) with
  | .error e => .error e
  | .ok fd => .ok (MemFile.mk fd)

/-- Embeds `MemFile::create_default`: `create` with `CreateOptions::default()`. -/
def MemFile.create_default (linux : Bool) (sys_create : String → Nat → Except IoError Int)
    (name : String) : Except IoError MemFile :=
  MemFile.create linux sys_create name CreateOptions.default

/-- Embeds `MemFile::create_sealable`: `create` with
`CreateOptions::new().allow_sealing(true)`. -/
def MemFile.create_sealable (linux : Bool) (sys_create : String → Nat → Except IoError Int)
    (name : String) : Except IoError MemFile :=
  MemFile.create linux sys_create name (CreateOptions.new.setAllowSealing true)

/-- Claim C10: the Debug rendering of a `Seals` value is deterministic:
it lists exactly the contained seals, in canonical order, separated by the
fixed delimiter and enclosed in the fixed `Seals { ... }` bracket pair;
rendering `all()` yields the five (Linux) or four (other targets) seal
names so joined, and rendering `empty()` yields the empty-bracket form. -/
theorem seals_debug_rendering (linux : Bool) (s : Seals) :
    s.debugFmt linux
        = "Seals \x7b "
            ++ String.intercalate "| " ((s.iterList linux).map (fun x => x.debugName ++ " "))
            ++ "\x7d"
      ∧ s.iterList linux
          = (ALL_SEALS linux).filter (fun x => s.contains (Seals.fromSeal linux x))
      ∧ Seals.debugFmt true (Seals.all true)
          = "Seals \x7b Seal | Shrink | Grow | Write | FutureWrite \x7d"
      ∧ Seals.debugFmt false (Seals.all false)
          = "Seals \x7b Seal | Shrink | Grow | Write \x7d"
      ∧ Seals.debugFmt linux (Seals.empty linux) = "Seals \x7b \x7d" := by
  refine ⟨?_, iterList_eq_filter linux s, rfl, rfl, ?_⟩
  · rw [Seals.debugFmt, sealsDebugBody_eq_intercalate]
  · cases linux <;> rfl

/-- Claim C7: when the seal query fails, `from_file` returns an error value
carrying both the underlying OS error and the original, still-owned file
object, retrievable through `error`, `file`, `into_parts` and `into_file`;
only when the query succeeds is the input consumed into the new handle. -/
theorem from_file_preserves_ownership {T : Type} (kernel : Int → Except IoError Int)
    (as_raw_fd : T → Int) (file : T) (e : IoError) (n : Int) :
    (kernel (as_raw_fd file) = Except.error e →
        MemFile.from_file kernel as_raw_fd file = Except.error (FromFdError.mk e file)
          ∧ (FromFdError.mk e file).error = e
          ∧ (FromFdError.mk e file).file = file
          ∧ (FromFdError.mk e file).into_parts = (e, file)
          ∧ (FromFdError.mk e file).into_error = e
          ∧ (FromFdError.mk e file).into_file = file)
      ∧ (kernel (as_raw_fd file) = Except.ok n →
          MemFile.from_file kernel as_raw_fd file = Except.ok (MemFile.mk (as_raw_fd file))) := by
  constructor
  · intro h
    refine ⟨?_, rfl, rfl, rfl, rfl, rfl⟩
    rw [MemFile.from_file, h]
  · intro h
    rw [MemFile.from_file, h]

/-- Witness for C7: a kernel whose seal query always fails with OS error 22
on descriptor 7 of a file object modeled as `(7 : Int)`. -/
theorem from_file_preserves_ownership_witness :
    MemFile.from_file (fun _ => Except.error (IoError.mk 22)) (fun n => n) (7 : Int)
      = Except.error (FromFdError.mk (IoError.mk 22) 7) :=
  ((from_file_preserves_ownership (fun _ => Except.error (IoError.mk 22)) (fun n => n)
    (7 : Int) (IoError.mk 22) 0).1 rfl).1

/-- Claim C9: for every bitmask the kernel's seal query returns,
`get_seals` produces exactly `Seals::from_bits_truncate(mask)`, so unknown
seal bits are silently dropped and the result always satisfies the
`SEAL_MASK` invariant. -/
theorem get_seals_truncates (linux : Bool) (kernel : Int → Except IoError Int)
    (self : MemFile) (m : Int) (hm : kernel self.fd = Except.ok m)
    (h0 : 0 ≤ m) (h32 : m < 2 ^ 32) :
    MemFile.get_seals linux kernel self
        = Except.ok (Seals.from_bits_truncate linux m.toNat)
      ∧ (Seals.from_bits_truncate linux m.toNat).bits &&& SEAL_MASK linux
          = (Seals.from_bits_truncate linux m.toNat).bits := by
  constructor
  · rw [MemFile.get_seals, hm]
    show Except.ok (Seals.from_bits_truncate linux (m % (2 ^ 32 : Int)).toNat)
        = Except.ok (Seals.from_bits_truncate linux m.toNat)
    rw [Int.emod_eq_of_lt h0 h32]
  · exact and_mask_idem m.toNat (SEAL_MASK linux)

/-- Witness for C9: a kernel reporting mask 63 (all five seals plus the
unknown bit 32) on a Linux target; the unknown bit is dropped. -/
theorem get_seals_truncates_witness :
    MemFile.get_seals true (fun _ => Except.ok 63) (MemFile.mk 3)
        = Except.ok (Seals.from_bits_truncate true (63 : Int).toNat)
      ∧ Seals.from_bits_truncate true (63 : Int).toNat = Seals.mk 31 :=
  ⟨(get_seals_truncates true (fun _ => Except.ok 63) (MemFile.mk 3) 63 rfl
      (by decide) (by decide)).1,
    by decide⟩

/-- Counterexample to C8 as stated: on a non-Linux Unix-like target the
huge-page branch of `as_flags` is compiled out
(`#[cfg(target_os = "linux")]`), so a configured huge-page size does not
set the huge-page flag there. -/
theorem create_flags_counterexample :
    (CreateOptions.mk false (some HugeTlb.Huge64KB)).huge_table.isSome = true
      ∧ CreateOptions.as_flags false (CreateOptions.mk false (some HugeTlb.Huge64KB))
          &&& MFD_HUGETLB = 0 := by
  constructor
  · rfl
  · decide

/-- Claim C8 (amended): the creation flags always include close-on-exec;
they include the allow-sealing flag exactly when `allow_sealing` is set;
on Linux they include the huge-page flag plus the encoded page-size
selector exactly when a huge-page size is configured, while on non-Linux
targets the huge-page setting is ignored; the convenience constructors use
default options (sealing disabled) and default options with sealing
enabled, respectively. -/
theorem create_flags_spec (linux : Bool) (o : CreateOptions)
    (sys_create : String → Nat → Except IoError Int) (name : String) :
    (CreateOptions.as_flags linux o).testBit 0 = true
      ∧ (CreateOptions.as_flags linux o).testBit 1 = o.allow_sealing
      ∧ (CreateOptions.as_flags linux o).testBit 2 = (linux && o.huge_table.isSome)
      ∧ (∀ h : HugeTlb, o.huge_table = some h → linux = true →
          CreateOptions.as_flags linux o
            = ((if o.allow_sealing then MFD_CLOEXEC ||| MFD_ALLOW_SEALING else MFD_CLOEXEC)
                ||| (MFD_HUGETLB ||| h.val)))
      ∧ (linux = false →
          CreateOptions.as_flags linux o
            = (if o.allow_sealing then MFD_CLOEXEC ||| MFD_ALLOW_SEALING else MFD_CLOEXEC))
      ∧ MemFile.create_default linux sys_create name
          = MemFile.create linux sys_create name CreateOptions.default
      ∧ MemFile.create_sealable linux sys_create name
          = MemFile.create linux sys_create name (CreateOptions.new.setAllowSealing true)
      ∧ CreateOptions.default.allow_sealing = false
      ∧ CreateOptions.default.huge_table = none
      ∧ (CreateOptions.new.setAllowSealing true).allow_sealing = true
      ∧ (CreateOptions.new.setAllowSealing true).huge_table = none := by
  obtain ⟨als, ht⟩ := o
  refine ⟨?_, ?_, ?_, ?_, ?_, rfl, rfl, rfl, rfl, rfl, rfl⟩ <;>
    cases linux <;> cases als <;> rcases ht with _ | hv <;>
      first
        | decide
        | (cases hv <;> decide)

/-- Witness for C8: with sealing enabled and a 2MB huge-page size on Linux,
the flags are exactly close-on-exec, allow-sealing, the huge-page flag and
the 2MB selector. -/
theorem create_flags_spec_witness :
    CreateOptions.as_flags true (CreateOptions.mk true (some HugeTlb.Huge2MB))
        &&& MFD_HUGETLB = MFD_HUGETLB := by
  have h := (create_flags_spec true (CreateOptions.mk true (some HugeTlb.Huge2MB))
      (fun _ _ => Except.ok 3) "f").2.2.2.1 HugeTlb.Huge2MB rfl rfl
  rw [h]
  decide

end Memfile
